import Mathlib

/-!
Shallow embedding of `fetch_okx_data.py` from the `news_analyse`
repository: pagination of the OKX candle / funding-rate / open-interest
endpoints, the CCXT candle loop, provider fallback in `main`, the
freshness gate, and the funding / open-interest fusion.

Timestamps are modelled as integers (milliseconds since the epoch, as in
the source); prices, rates and open-interest values as rationals.  A
pandas NaN cell is modelled as `none` of an `Option` column.
-/

/-- One OHLCV candle row as built by the fetchers:
`{datetime, open, high, low, close, volume}`. -/
structure Candle where
  ts : Int
  op : ℚ
  hi : ℚ
  lo : ℚ
  cl : ℚ
  vol : ℚ
deriving DecidableEq

/-- Comparison of candle rows by timestamp, the sort key of
`df.sort_values("datetime")`. -/
def candleLE (a b : Candle) : Prop := a.ts ≤ b.ts

instance : DecidableRel candleLE := fun a b => Int.decLe a.ts b.ts

instance : IsTotal Candle candleLE := ⟨fun a b => Int.le_total a.ts b.ts⟩

instance : IsTrans Candle candleLE := ⟨fun _ _ _ h h' => le_trans h h'⟩

/-- Milliseconds in one hour. -/
def msPerHour : Int := 3600000

/-- The staleness bound `timedelta(hours=12)` used by `main`. -/
def maxAgeMs : Int := 12 * msPerHour

/-- The `pd.Timedelta(hours=1)` tolerance of the open-interest merge. -/
def oiTolMs : Int := msPerHour

/-- Value of `pd.merge_asof(..., on='datetime', direction='backward')` for
one left key `T`: the funding record with the greatest timestamp `≤ T`
(for the sorted right-hand frame this is the last such record in list
order), `none` when no record qualifies (pandas emits NaN). -/
def asof_backward (fr : List (Int × ℚ)) (T : Int) : Option ℚ :=
  ((fr.filter (fun p => decide (p.1 ≤ T))).getLast?).map Prod.snd

/-- Helper for `ffill`: carries the most recent present value forward. -/
def ffillAux : Option ℚ → List (Option ℚ) → List (Option ℚ)
  | _, [] => []
  | prev, none :: xs => prev :: ffillAux prev xs
  | _, some v :: xs => some v :: ffillAux (some v) xs

/-- The column transform `fillna(method='ffill')`: each missing cell takes
the nearest earlier present value; leading missing cells stay missing. -/
def ffill (l : List (Option ℚ)) : List (Option ℚ) := ffillAux none l

/-- The funding-rate column produced by `main`: when the funding frame is
empty the column is the constant `0.0`, otherwise it is the backward
as-of merge followed by a forward fill. -/
def funding_column (tsl : List Int) (fr : List (Int × ℚ)) : List (Option ℚ) :=
  if fr.isEmpty then tsl.map (fun _ => some 0)
  else ffill (tsl.map (asof_backward fr))

/-- The record whose timestamp is closest to `T` (ties resolved to the
earlier record, as pandas resolves `direction='nearest'`). -/
def pickNearest (T : Int) : List (Int × ℚ) → Option (Int × ℚ)
  | [] => none
  | p :: ps =>
    match pickNearest T ps with
    | none => some p
    | some q => if |p.1 - T| ≤ |q.1 - T| then some p else some q

/-- Value of `pd.merge_asof(..., direction='nearest',
tolerance=pd.Timedelta(hours=1))` for one left key `T`: the closest
record within one hour of `T`, `none` (NaN) when no record is that
close. -/
def asof_nearest (oi : List (Int × ℚ)) (T : Int) : Option ℚ :=
  (pickNearest T (oi.filter (fun p => decide (|p.1 - T| ≤ oiTolMs)))).map Prod.snd

/-- The open-interest column produced by `main`: when the open-interest
frame is empty the column is the constant `0.0`, otherwise it is the
nearest-within-tolerance as-of merge (with no fill of unmatched rows). -/
def oi_column (tsl : List Int) (oi : List (Int × ℚ)) : List (Option ℚ) :=
  if oi.isEmpty then tsl.map (fun _ => some 0)
  else tsl.map (asof_nearest oi)

/-- The fused per-asset dataset of `main`: the candle backbone with the
funding-rate column and then the open-interest column merged on. -/
def fuse_dataset (candles : List Candle) (fr oi : List (Int × ℚ)) :
    List (Candle × Option ℚ × Option ℚ) :=
  let f := funding_column (candles.map Candle.ts) fr
  let o := oi_column (candles.map Candle.ts) oi
  candles.zip (f.zip o)

theorem ffillAux_length (prev : Option ℚ) (l : List (Option ℚ)) :
    (ffillAux prev l).length = l.length := by
  induction l generalizing prev with
  | nil => rfl
  | cons x xs ih => cases x <;> simp [ffillAux, ih]

theorem funding_column_length (tsl : List Int) (fr : List (Int × ℚ)) :
    (funding_column tsl fr).length = tsl.length := by
  unfold funding_column
  split <;> simp [ffill, ffillAux_length]

theorem oi_column_length (tsl : List Int) (oi : List (Int × ℚ)) :
    (oi_column tsl oi).length = tsl.length := by
  unfold oi_column
  split <;> simp

/-- Claim C1: for every primary candle series and any funding and
open-interest series, the fused dataset has exactly one row per primary
candle — neither the funding merge nor the open-interest merge drops or
adds a row. -/
theorem C1_fused_row_count (candles : List Candle) (fr oi : List (Int × ℚ)) :
    (fuse_dataset candles fr oi).length = candles.length := by
  unfold fuse_dataset
  simp [funding_column_length, oi_column_length]

theorem asof_backward_isSome_mono (fr : List (Int × ℚ)) {T₁ T₂ : Int}
    (hT : T₁ ≤ T₂) (h : (asof_backward fr T₁).isSome = true) :
    (asof_backward fr T₂).isSome = true := by
  unfold asof_backward at *
  rw [Option.isSome_map', List.getLast?_isSome] at h ⊢
  intro hnil
  apply h
  rw [List.filter_eq_nil_iff] at hnil ⊢
  intro a ha
  have := hnil a ha
  simp only [decide_eq_true_eq] at this ⊢
  intro hle
  exact this (le_trans hle hT)

theorem ffillAux_of_all_some (l : List (Option ℚ))
    (h : ∀ x ∈ l, x.isSome = true) (prev : Option ℚ) : ffillAux prev l = l := by
  induction l generalizing prev with
  | nil => rfl
  | cons x xs ih =>
    match x, h x (List.mem_cons_self x xs) with
    | some v, _ =>
      simp only [ffillAux]
      rw [ih (fun y hy => h y (List.mem_cons_of_mem _ hy))]

theorem chain'_isSome_tail_all_some (v : ℚ) (l : List (Option ℚ))
    (h : List.Chain' (fun a b : Option ℚ => a.isSome = true → b.isSome = true)
      (some v :: l)) : ∀ x ∈ l, x.isSome = true := by
  induction l generalizing v with
  | nil => intro x hx; cases hx
  | cons y ys ih =>
    intro x hx
    have hvy : y.isSome = true := by
      have := List.chain'_cons.mp h
      exact this.1 rfl
    match y, hvy with
    | some w, _ =>
      rcases List.mem_cons.mp hx with rfl | hx
      · rfl
      · exact ih w ((List.chain'_cons.mp h).2) x hx

theorem ffill_id_of_chain' (l : List (Option ℚ))
    (h : List.Chain' (fun a b : Option ℚ => a.isSome = true → b.isSome = true) l) :
    ffill l = l := by
  unfold ffill
  induction l with
  | nil => rfl
  | cons x xs ih =>
    cases x with
    | none =>
      simp only [ffillAux]
      rw [show ffillAux none xs = xs from ih h.tail]
    | some v =>
      simp only [ffillAux]
      rw [ffillAux_of_all_some xs (chain'_isSome_tail_all_some v xs h)]

theorem pairwise_fst_le_getLast (l : List (Int × ℚ)) :
    l.Pairwise (fun p q => p.1 ≤ q.1) → ∀ q, l.getLast? = some q →
      ∀ x ∈ l, x.1 ≤ q.1 := by
  induction l with
  | nil => intro _ q hq x hx; cases hx
  | cons a tl ih =>
    intro hl q hq x hx
    cases tl with
    | nil =>
      simp only [List.getLast?_singleton, Option.some_inj] at hq
      rcases List.mem_singleton.mp hx with rfl
      subst hq
      exact le_refl _
    | cons b tl' =>
      rw [List.getLast?_cons_cons] at hq
      rcases List.mem_cons.mp hx with rfl | hx
      · exact (List.pairwise_cons.mp hl).1 q (List.mem_of_mem_getLast? hq)
      · exact ih (List.pairwise_cons.mp hl).2 q hq x hx

theorem asof_backward_spec (fr : List (Int × ℚ))
    (hsort : fr.Pairwise (fun p q => p.1 ≤ q.1)) (T : Int) (r : ℚ)
    (h : asof_backward fr T = some r) :
    ∃ p ∈ fr, p.2 = r ∧ p.1 ≤ T ∧ ∀ q ∈ fr, q.1 ≤ T → q.1 ≤ p.1 := by
  unfold asof_backward at h
  rcases Option.map_eq_some'.mp h with ⟨p, hp, hpr⟩
  have hp_mem_filter : p ∈ fr.filter (fun p => decide (p.1 ≤ T)) :=
    List.mem_of_mem_getLast? hp
  have hp_mem : p ∈ fr := List.mem_of_mem_filter hp_mem_filter
  have hp_le : p.1 ≤ T := by
    have := List.of_mem_filter hp_mem_filter
    simpa using this
  refine ⟨p, hp_mem, hpr, hp_le, ?_⟩
  intro q hq hqT
  have hq_filter : q ∈ fr.filter (fun p => decide (p.1 ≤ T)) := by
    rw [List.mem_filter]
    exact ⟨hq, by simpa using hqT⟩
  exact pairwise_fst_le_getLast _
    (hsort.sublist (List.filter_sublist fr)) p hp q hq_filter

theorem asof_backward_eq_none (fr : List (Int × ℚ)) (T : Int)
    (h : ∀ p ∈ fr, ¬ p.1 ≤ T) : asof_backward fr T = none := by
  unfold asof_backward
  rw [show fr.filter (fun p => decide (p.1 ≤ T)) = [] from ?_]
  · rfl
  · rw [List.filter_eq_nil_iff]
    intro a ha
    simpa using h a ha

/-- Scenario B candle timestamps 09:00, 11:00, 15:00 (ms of day). -/
def scenB_candles : List Int := [32400000, 39600000, 54000000]

/-- Scenario B funding records (10:00, 0.01) and (14:00, -0.02). -/
def scenB_funding : List (Int × ℚ) :=
  [(36000000, mkRat 1 100), (50400000, mkRat (-2) 100)]

/-- Claim C4 counterexample: on Scenario B the code's funding column is
`[NaN, 0.01, -0.02]` — the candle at 09:00, which precedes every funding
record, keeps a missing value (`fillna(method='ffill')` does not fill a
leading NaN), not the 0.0 the claim asserts. -/
theorem C4_counterexample :
    funding_column scenB_candles scenB_funding =
      [none, some (mkRat 1 100), some (mkRat (-2) 100)] ∧
    funding_column scenB_candles scenB_funding ≠
      [some 0, some (mkRat 1 100), some (mkRat (-2) 100)] := by
  constructor
  · decide
  · decide

/-- Claim C4 amended: with a non-empty funding series and ascending candle
timestamps, each row's funding rate is exactly the backward as-of value —
the rate of the funding record with the greatest timestamp `≤ T` (for a
timestamp-sorted funding series), and a missing value (NaN, not 0.0) for
rows that precede every funding record; 0.0 appears only when the funding
series is entirely empty. -/
theorem C4_funding_merge (candles : List Int) (fr : List (Int × ℚ))
    (hfr : fr ≠ []) (hc : candles.Chain' (fun a b => a ≤ b)) :
    funding_column candles fr = candles.map (asof_backward fr) ∧
    (fr.Pairwise (fun p q => p.1 ≤ q.1) → ∀ T r, asof_backward fr T = some r →
      ∃ p ∈ fr, p.2 = r ∧ p.1 ≤ T ∧ ∀ q ∈ fr, q.1 ≤ T → q.1 ≤ p.1) ∧
    (∀ T, (∀ p ∈ fr, ¬ p.1 ≤ T) → asof_backward fr T = none) := by
  refine ⟨?_, fun hs T r h => asof_backward_spec fr hs T r h,
    fun T h => asof_backward_eq_none fr T h⟩
  unfold funding_column
  rw [if_neg (by simpa [List.isEmpty_iff] using hfr)]
  apply ffill_id_of_chain'
  rw [List.chain'_map]
  exact hc.imp (fun a b hab h => asof_backward_isSome_mono fr hab h)

/-- Witness for C4: the amended theorem applied to Scenario B. -/
theorem C4_witness :
    scenB_funding ≠ [] ∧
    scenB_candles.Chain' (fun a b => a ≤ b) ∧
    funding_column scenB_candles scenB_funding =
      scenB_candles.map (asof_backward scenB_funding) :=
  ⟨by decide, by simp [scenB_candles, List.chain'_cons],
    (C4_funding_merge scenB_candles scenB_funding (by decide)
      (by simp [scenB_candles, List.chain'_cons])).1⟩

theorem pickNearest_mem_min (T : Int) (l : List (Int × ℚ)) :
    ∀ q, pickNearest T l = some q →
      q ∈ l ∧ ∀ p ∈ l, |q.1 - T| ≤ |p.1 - T| := by
  induction l with
  | nil => intro q hq; cases hq
  | cons a tl ih =>
    intro q hq
    simp only [pickNearest] at hq
    cases htl : pickNearest T tl with
    | none =>
      rw [htl] at hq
      cases hq
      have htl_nil : tl = [] := by
        cases tl with
        | nil => rfl
        | cons b tl' =>
          exfalso
          simp only [pickNearest] at htl
          cases h2 : pickNearest T tl' with
          | none => rw [h2] at htl; cases htl
          | some q2 =>
            rw [h2] at htl
            by_cases hle : |b.1 - T| ≤ |q2.1 - T| <;> simp [hle] at htl
      subst htl_nil
      exact ⟨List.mem_singleton_self a, by
        intro p hp
        rcases List.mem_singleton.mp hp with rfl
        exact le_refl _⟩
    | some q2 =>
      rw [htl] at hq
      dsimp only at hq
      rcases ih q2 htl with ⟨hq2_mem, hq2_min⟩
      by_cases hle : |a.1 - T| ≤ |q2.1 - T|
      · rw [if_pos hle] at hq
        cases hq
        refine ⟨List.mem_cons_self a tl, ?_⟩
        intro p hp
        rcases List.mem_cons.mp hp with rfl | hp
        · exact le_refl _
        · exact le_trans hle (hq2_min p hp)
      · rw [if_neg hle] at hq
        cases hq
        refine ⟨List.mem_cons_of_mem a hq2_mem, ?_⟩
        intro p hp
        rcases List.mem_cons.mp hp with rfl | hp
        · exact le_of_lt (lt_of_not_le hle)
        · exact hq2_min p hp

/-- Claim C5 counterexample: with open-interest records `[(00:00, 5)]` and
candle timestamps `[00:00, 10:00]`, the second candle is more than one
hour from every record, and the code leaves its `open_interest` cell
missing (NaN) instead of the 0.0 the claim asserts. -/
theorem C5_counterexample :
    oi_column [0, 36000000] [(0, 5)] = [some 5, none] ∧
    oi_column [0, 36000000] [(0, 5)] ≠ [some 5, some 0] := by
  constructor
  · decide
  · decide

/-- Claim C5 amended: when the open-interest series is non-empty, each
candle timestamp `T` is assigned the value of the record closest to `T`
among those within one hour of `T`, and a missing value (NaN, not 0.0)
when no record lies within one hour; every row is 0.0 only when the
open-interest series is entirely empty. -/
theorem C5_oi_merge :
    (∀ tsl : List Int, oi_column tsl [] = tsl.map (fun _ => some 0)) ∧
    (∀ (tsl : List Int) (oi : List (Int × ℚ)), oi ≠ [] →
      oi_column tsl oi = tsl.map (asof_nearest oi)) ∧
    (∀ (oi : List (Int × ℚ)) (T : Int) (r : ℚ), asof_nearest oi T = some r →
      ∃ p ∈ oi, p.2 = r ∧ |p.1 - T| ≤ oiTolMs ∧
        ∀ q ∈ oi, |q.1 - T| ≤ oiTolMs → |p.1 - T| ≤ |q.1 - T|) ∧
    (∀ (oi : List (Int × ℚ)) (T : Int),
      (∀ p ∈ oi, oiTolMs < |p.1 - T|) → asof_nearest oi T = none) := by
  refine ⟨fun tsl => rfl, ?_, ?_, ?_⟩
  · intro tsl oi hoi
    unfold oi_column
    rw [if_neg (by simpa [List.isEmpty_iff] using hoi)]
  · intro oi T r h
    unfold asof_nearest at h
    rcases Option.map_eq_some'.mp h with ⟨p, hp, hpr⟩
    rcases pickNearest_mem_min T _ p hp with ⟨hp_mem_f, hp_min⟩
    have hp_mem : p ∈ oi := List.mem_of_mem_filter hp_mem_f
    have hp_tol : |p.1 - T| ≤ oiTolMs := by
      have := List.of_mem_filter hp_mem_f
      simpa using this
    refine ⟨p, hp_mem, hpr, hp_tol, ?_⟩
    intro q hq hq_tol
    exact hp_min q (by rw [List.mem_filter]; exact ⟨hq, by simpa using hq_tol⟩)
  · intro oi T h
    unfold asof_nearest
    rw [show oi.filter (fun p => decide (|p.1 - T| ≤ oiTolMs)) = [] from ?_]
    · rfl
    · rw [List.filter_eq_nil_iff]
      intro a ha
      simpa using not_le.mpr (h a ha)

/-- Witness for C5: the amended theorem applied to concrete inputs — the
record `(00:00, 5)` is within one hour of the candle at `00:00` and is
the closest such record. -/
theorem C5_witness :
    ∃ p ∈ [((0 : Int), (5 : ℚ))], p.2 = 5 ∧ |p.1 - 0| ≤ oiTolMs ∧
      ∀ q ∈ [((0 : Int), (5 : ℚ))], |q.1 - 0| ≤ oiTolMs →
        |p.1 - 0| ≤ |q.1 - 0| :=
  C5_oi_merge.2.2.1 [((0 : Int), (5 : ℚ))] 0 5 (by decide)

/-- The value of `df['datetime'].max()` (0 for an empty frame, which the
source never asks for). -/
def maxTsOf : List Candle → Int
  | [] => 0
  | c :: cs => cs.foldl (fun m x => max m x.ts) c.ts

theorem foldl_max_ge (cs : List Candle) (a : Int) :
    a ≤ cs.foldl (fun m x => max m x.ts) a := by
  induction cs generalizing a with
  | nil => exact le_refl a
  | cons c cs ih => exact le_trans (le_max_left a c.ts) (ih (max a c.ts))

theorem foldl_max_mem_le (cs : List Candle) (a : Int) :
    ∀ c ∈ cs, c.ts ≤ cs.foldl (fun m x => max m x.ts) a := by
  induction cs generalizing a with
  | nil => intro c hc; cases hc
  | cons c' cs ih =>
    intro c hc
    rcases List.mem_cons.mp hc with rfl | hc
    · exact le_trans (le_max_right a c.ts) (foldl_max_ge cs (max a c.ts))
    · exact ih (max a c'.ts) c hc

theorem foldl_max_mem_or (cs : List Candle) (a : Int) :
    cs.foldl (fun m x => max m x.ts) a = a ∨
      ∃ c ∈ cs, cs.foldl (fun m x => max m x.ts) a = c.ts := by
  induction cs generalizing a with
  | nil => exact Or.inl rfl
  | cons c cs ih =>
    rcases ih (max a c.ts) with h | ⟨c', hc', h⟩
    · rcases max_choice a c.ts with hm | hm
      · exact Or.inl (by rw [List.foldl_cons, h, hm])
      · exact Or.inr ⟨c, List.mem_cons_self c cs, by rw [List.foldl_cons, h, hm]⟩
    · exact Or.inr ⟨c', List.mem_cons_of_mem c hc', by rw [List.foldl_cons, h]⟩

/-- The staleness gate of `main`: a non-empty frame is rejected exactly
when `now - df['datetime'].max() > timedelta(hours=12)` (an empty frame
never enters the check). -/
def freshnessRejects (now : Int) (candles : List Candle) : Bool :=
  !candles.isEmpty && decide (maxAgeMs < now - maxTsOf candles)

/-- Claim C6: for a non-empty candle series the freshness gate computes
the age from the newest timestamp in the series and rejects exactly when
that age strictly exceeds the 12-hour bound; an age equal to the bound is
accepted. -/
theorem C6_freshness (now : Int) (candles : List Candle) (h : candles ≠ []) :
    (freshnessRejects now candles = true ↔ maxAgeMs < now - maxTsOf candles) ∧
    (∀ c ∈ candles, c.ts ≤ maxTsOf candles) ∧
    (∃ c ∈ candles, maxTsOf candles = c.ts) ∧
    (now - maxTsOf candles = maxAgeMs → freshnessRejects now candles = false) := by
  refine ⟨?_, ?_, ?_, ?_⟩
  · unfold freshnessRejects
    simp [List.isEmpty_iff, h]
  · intro c hc
    cases candles with
    | nil => cases hc
    | cons a cs =>
      unfold maxTsOf
      rcases List.mem_cons.mp hc with rfl | hc
      · exact foldl_max_ge cs c.ts
      · exact foldl_max_mem_le cs a.ts c hc
  · cases candles with
    | nil => exact absurd rfl h
    | cons a cs =>
      unfold maxTsOf
      rcases foldl_max_mem_or cs a.ts with h' | ⟨c, hc, h'⟩
      · exact ⟨a, List.mem_cons_self a cs, h'⟩
      · exact ⟨c, List.mem_cons_of_mem a hc, h'⟩
  · intro hage
    unfold freshnessRejects
    rw [hage]
    simp

/-- A reference candle row used by the concrete witnesses. -/
def c0 : Candle := ⟨0, 1, 1, 1, 1, 1⟩

/-- Witness for C6: a series whose age is exactly the 12-hour bound is
accepted. -/
theorem C6_witness : freshnessRejects maxAgeMs [c0] = false :=
  (C6_freshness maxAgeMs [c0] (by decide)).2.2.2 (by decide)

/-- The candle series each provider would return for one asset. -/
structure ProviderWorld where
  okx : List Candle
  bnb : List Candle
  ccxt : List Candle
  yf : List Candle

/-- The candle acquisition of `main` for one asset: OKX first, then the
Binance fallback, then the yfinance fallback.  `fetch_ccxt_candles` is
defined in the source file but `main` never invokes it, so the CCXT
series of the world is unused. -/
def code_selection (w : ProviderWorld) : List Candle :=
  let df := w.okx
  let df := if df.isEmpty then w.bnb else df
  if df.isEmpty then w.yf else df

/-- Modelled from the spec's words, for comparison with `code_selection`:
the four-provider chain Primary (OKX), Secondary (Binance), Aggregator
(CCXT), Vendor (yfinance); the first non-empty series wins and an
exhausted chain yields the empty series. -/
def spec_selection (w : ProviderWorld) : List Candle :=
  if w.okx.isEmpty then
    if w.bnb.isEmpty then
      if w.ccxt.isEmpty then
        if w.yf.isEmpty then [] else w.yf
      else w.ccxt
    else w.bnb
  else w.okx

theorem code_selection_of_okx (w : ProviderWorld) (h : w.okx ≠ []) :
    code_selection w = w.okx := by
  unfold code_selection
  simp [List.isEmpty_iff, h]

theorem code_selection_of_bnb (w : ProviderWorld) (h1 : w.okx = [])
    (h2 : w.bnb ≠ []) : code_selection w = w.bnb := by
  unfold code_selection
  simp [List.isEmpty_iff, h1, h2]

theorem code_selection_of_yf (w : ProviderWorld) (h1 : w.okx = [])
    (h2 : w.bnb = []) : code_selection w = w.yf := by
  unfold code_selection
  simp [List.isEmpty_iff, h1, h2]

/-- The world of claim C3's counterexample: only the CCXT aggregator has
data. -/
def cx_world : ProviderWorld := ⟨[], [], [c0], []⟩

/-- Claim C3 counterexample: when OKX, Binance and yfinance are all empty
but CCXT has a non-empty series, the spec's four-provider chain returns
the CCXT series while `main` — which never calls `fetch_ccxt_candles` —
produces the empty series. -/
theorem C3_counterexample :
    spec_selection cx_world = [c0] ∧
    code_selection cx_world = [] ∧
    ([c0] : List Candle) ≠ [] := by
  refine ⟨rfl, rfl, by decide⟩

/-- Claim C3 amended: `main` tries the candle providers in the fixed
order OKX, Binance, yfinance (the CCXT fetcher is defined but never
invoked); the first non-empty series stops the chain, and if every tried
provider returns empty the result is the empty series. -/
theorem C3_fallback_chain (w : ProviderWorld) :
    (w.okx ≠ [] → code_selection w = w.okx) ∧
    (w.okx = [] → w.bnb ≠ [] → code_selection w = w.bnb) ∧
    (w.okx = [] → w.bnb = [] → code_selection w = w.yf) :=
  ⟨fun h => code_selection_of_okx w h,
   fun h1 h2 => code_selection_of_bnb w h1 h2,
   fun h1 h2 => code_selection_of_yf w h1 h2⟩

/-- The world of claim C3's witness: OKX answers. -/
def okx_world : ProviderWorld := ⟨[c0], [], [], []⟩

/-- Witness for C3: with a non-empty OKX series the chain stops at OKX. -/
theorem C3_witness : code_selection okx_world = okx_world.okx :=
  (C3_fallback_chain okx_world).1 (by decide)

/-- Everything `main` consumes for one asset: the four provider results,
the auxiliary funding and open-interest series, and the wall clock. -/
structure AssetWorld where
  providers : ProviderWorld
  funding : List (Int × ℚ)
  oi : List (Int × ℚ)
  now : Int

/-- One write of the per-asset 4h output CSV in `main`: a bare candle
frame or the final fused frame. -/
inductive FileWrite where
  | raw (c : List Candle)
  | fused (d : List (Candle × Option ℚ × Option ℚ))
deriving DecidableEq

/-- One iteration of the per-asset loop of `main`: the ordered sequence
of writes to the asset's 4h output file and whether the asset is counted
failed.  A non-empty OKX fetch is written out immediately, before the
freshness gate; a stale or empty post-fallback selection fails the asset
and the loop continues with no further write; otherwise the selection is
written again and then the fused dataset is written. -/
def asset_step (w : AssetWorld) : List FileWrite × Bool :=
  let first :=
    if w.providers.okx.isEmpty then [] else [FileWrite.raw w.providers.okx]
  let df := code_selection w.providers
  if freshnessRejects w.now df then (first, true)
  else if df.isEmpty then (first, true)
  else
    (first ++ [FileWrite.raw df, FileWrite.fused (fuse_dataset df w.funding w.oi)],
     false)

/-- The per-asset outcomes of the batch loop of `main`: every configured
asset is processed, in order. -/
def driver_outcomes (assets : List AssetWorld) : List (List FileWrite × Bool) :=
  assets.map asset_step

/-- The `failure_count` accumulator of `main`. -/
def failure_count (assets : List AssetWorld) : Nat :=
  (driver_outcomes assets).countP (fun r => r.2)

/-- The process exit status of `main`: `sys.exit(1)` when at least one
asset failed, normal termination (0) otherwise. -/
def driver_exit (assets : List AssetWorld) : Nat :=
  if 0 < failure_count assets then 1 else 0

theorem failure_count_pos_iff (assets : List AssetWorld) :
    0 < failure_count assets ↔ ∃ w ∈ assets, (asset_step w).2 = true := by
  unfold failure_count driver_outcomes
  rw [List.countP_pos_iff]
  constructor
  · rintro ⟨r, hr, hr2⟩
    rcases List.mem_map.mp hr with ⟨w, hw, rfl⟩
    exact ⟨w, hw, hr2⟩
  · rintro ⟨w, hw, hw2⟩
    exact ⟨asset_step w, List.mem_map_of_mem _ hw, hw2⟩

/-- Claim C9: every configured asset is processed (no mid-run abort); an
asset is marked failed exactly when its post-fallback candle series is
empty or fails the freshness gate; and the driver signals overall failure
(exit status 1) if and only if at least one asset failed, success (0)
otherwise. -/
theorem C9_batch_driver (assets : List AssetWorld) :
    (driver_outcomes assets).length = assets.length ∧
    (∀ w : AssetWorld, (asset_step w).2 = true ↔
      (code_selection w.providers = [] ∨
        freshnessRejects w.now (code_selection w.providers) = true)) ∧
    (driver_exit assets = 1 ↔ ∃ w ∈ assets, (asset_step w).2 = true) ∧
    (driver_exit assets = 0 ↔ ∀ w ∈ assets, (asset_step w).2 = false) := by
  refine ⟨List.length_map assets asset_step, ?_, ?_, ?_⟩
  · intro w
    unfold asset_step
    by_cases hst : freshnessRejects w.now (code_selection w.providers) = true
    · simp [hst]
    · rw [if_neg hst]
      by_cases hem : code_selection w.providers = []
      · simp [hem, List.isEmpty_iff]
      · simp [hem, List.isEmpty_iff, hst]
  · unfold driver_exit
    by_cases hp : 0 < failure_count assets
    · simpa [hp] using (failure_count_pos_iff assets).mp hp
    · rw [if_neg hp]
      simp only [Nat.zero_ne_one, false_iff]
      intro hex
      exact hp ((failure_count_pos_iff assets).mpr hex)
  · unfold driver_exit
    by_cases hp : 0 < failure_count assets
    · rw [if_pos hp]
      simp only [Nat.one_ne_zero, false_iff]
      intro hall
      rcases (failure_count_pos_iff assets).mp hp with ⟨w, hw, hw2⟩
      rw [hall w hw] at hw2
      cases hw2
    · rw [if_neg hp]
      simp only [true_iff]
      intro w hw
      by_contra hne
      exact hp ((failure_count_pos_iff assets).mpr
        ⟨w, hw, by simpa using hne⟩)

/-- Claim C10: whenever the OKX 4h fetch is non-empty but stale, the
asset's output file has already been overwritten with that series; the
asset is then failed for staleness and no later write replaces the stale
content — the last write of the asset's iteration is the raw stale OKX
series. -/
theorem C10_stale_file (w : AssetWorld) (h1 : w.providers.okx ≠ [])
    (h2 : freshnessRejects w.now w.providers.okx = true) :
    (asset_step w).1.getLast? = some (FileWrite.raw w.providers.okx) ∧
    (asset_step w).2 = true := by
  have hsel := code_selection_of_okx w.providers h1
  unfold asset_step
  rw [hsel, if_pos h2]
  constructor
  · rw [if_neg (by simpa [List.isEmpty_iff] using h1)]
    rfl
  · rfl

/-- The world of claim C10's witness: OKX returns one candle at the
epoch and the clock is a full day later, so the series is stale. -/
def stale_world : AssetWorld := ⟨⟨[c0], [], [], []⟩, [], [], 24 * msPerHour⟩

/-- Witness for C10: the stale OKX series is the last (surviving) write
of the failed asset's output file. -/
theorem C10_witness :
    (asset_step stale_world).1.getLast? = some (FileWrite.raw [c0]) ∧
    (asset_step stale_world).2 = true :=
  C10_stale_file stale_world (by decide) (by decide)

/-- The pagination loop of the OKX candle fetcher, `for iteration in
range(50)`: `pages i` is the provider's reply to the `i`-th request.  An
empty page stops; records are consumed until one older than the lookback
horizon; the loop also stops when the page's oldest record is past the
horizon or the page is short (fewer than the requested 300 rows).  The
second component counts the requests issued. -/
def okxGo (pages : Nat → List Candle) (startTs : Int) :
    Nat → Nat → List Candle × Nat
  | _, 0 => ([], 0)
  | i, fuel+1 =>
    if (pages i).isEmpty then ([], 1)
    else
      match (pages i).getLast? with
      | none => ((pages i).takeWhile (fun r => decide (¬ r.ts < startTs)), 1)
      | some last =>
        if last.ts < startTs ∨ (pages i).length < 300 then
          ((pages i).takeWhile (fun r => decide (¬ r.ts < startTs)), 1)
        else
          ((pages i).takeWhile (fun r => decide (¬ r.ts < startTs)) ++
              (okxGo pages startTs (i+1) fuel).1,
            (okxGo pages startTs (i+1) fuel).2 + 1)

/-- The OKX candle fetcher: the capped pagination loop followed by
`df.sort_values("datetime")` (and nothing else — in particular no
deduplication).  Returns the series and the number of requests. -/
def fetch_okx_candles (pages : Nat → List Candle) (startTs : Int) :
    List Candle × Nat :=
  let r := okxGo pages startTs 0 50
  (List.insertionSort candleLE r.1, r.2)

/-- A provider response whose single page holds two records with the
same timestamp. -/
def dupPages : Nat → List Candle :=
  fun _ => [⟨100, 1, 2, 3, 4, 5⟩, ⟨100, 6, 7, 8, 9, 10⟩]

/-- Claim C7 counterexample: on a page containing two records with equal
timestamps the fetcher returns both — the output has a duplicate
timestamp, so no deduplication (last-write-wins or otherwise) is
performed. -/
theorem C7_counterexample :
    (fetch_okx_candles dupPages 0).1.map Candle.ts = [100, 100] ∧
    ¬ ((fetch_okx_candles dupPages 0).1.map Candle.ts).Nodup := by
  constructor
  · decide
  · decide

/-- Claim C7 amended: the candle series a fetcher returns is ordered
oldest-first (non-decreasing timestamps), but it is a permutation of the
accumulated records — sorting is the only post-processing, so records
with duplicate timestamps are all kept, none is dropped by
deduplication. -/
theorem C7_sorted_not_dedup (pages : Nat → List Candle) (startTs : Int) :
    List.Sorted candleLE (fetch_okx_candles pages startTs).1 ∧
    (fetch_okx_candles pages startTs).1.Perm (okxGo pages startTs 0 50).1 :=
  ⟨List.sorted_insertionSort candleLE _, List.perm_insertionSort candleLE _⟩

/-- A JSON field value as a Python string: a (rational) number, or a
string that neither `int()` nor `float()` accepts. -/
inductive Val where
  | num (q : ℚ)
  | bad
deriving DecidableEq

/-- Python `int(x)` on a field: succeeds on an integral number, raises
`ValueError` otherwise. -/
def valToInt : Val → Except Unit Int
  | .num q => if q.den = 1 then .ok q.num else .error ()
  | .bad => .error ()

/-- Python `float(x)` on a field: succeeds on a number, raises
`ValueError` otherwise. -/
def valToRat : Val → Except Unit ℚ
  | .num q => .ok q
  | .bad => .error ()

/-- One raw record of a funding-rate or open-interest page: a JSON
object carrying the two relevant fields (`none` = key absent, so `.get`
falls back to the default `0`), or a positional array. -/
inductive FRow where
  | dict (f1 f2 : Option Val)
  | arr (fields : List Val)
deriving DecidableEq

/-- Keyed access `int(row.get(tsKey, 0)), float(row.get(valKey, 0))`:
raises `AttributeError` on an array row and `ValueError` on an
unparseable field, the two exception types the source catches. -/
def keyedDecode : FRow → Except Unit (Int × ℚ)
  | .dict f1 f2 =>
    match (match f1 with | none => Except.ok 0 | some v => valToInt v) with
    | .error e => .error e
    | .ok ts =>
      match (match f2 with | none => Except.ok 0 | some v => valToRat v) with
      | .error e => .error e
      | .ok rate => .ok (ts, rate)
  | .arr _ => .error ()

/-- Positional access `int(row[4]), float(row[2])` of the funding
fallback branch: integer indexing raises on a dict row, and raises on a
short or unparseable array; these exceptions are not caught. -/
def posDecode : FRow → Except Unit (Int × ℚ)
  | .dict _ _ => .error ()
  | .arr fields =>
    match (match fields.get? 4 with | none => Except.error () | some v => valToInt v) with
    | .error e => .error e
    | .ok ts =>
      match (match fields.get? 2 with | none => Except.error () | some v => valToRat v) with
      | .error e => .error e
      | .ok rate => .ok (ts, rate)

/-- The per-record decode of `fetch_funding_rate`: keyed access first; a
`ValueError` / `AttributeError` falls through to positional access; a
failure of the fallback is an uncaught exception. -/
def decodeFR (r : FRow) : Except Unit (Int × ℚ) :=
  match keyedDecode r with
  | .ok v => .ok v
  | .error _ => posDecode r

/-- The record loop over one funding page: decoded records accumulate
until one older than the lookback horizon (`break`); a record whose
decode raises aborts the whole fetch (`Except.error`). -/
def fundingConsume (startTs : Int) : List FRow → Except Unit (List (Int × ℚ))
  | [] => .ok []
  | r :: rs =>
    match decodeFR r with
    | .error e => .error e
    | .ok v =>
      if v.1 < startTs then .ok []
      else
        match fundingConsume startTs rs with
        | .error e => .error e
        | .ok rest => .ok (v :: rest)

/-- The funding pagination token `int(rows[-1].get('fundingTime', 0))`
with a bare-except positional fallback `int(rows[-1][4])`; a failure of
the fallback propagates. -/
def lastTsFR : FRow → Except Unit Int
  | .dict f1 _ =>
    match f1 with
    | none => .ok 0
    | some v =>
      match valToInt v with
      | .ok n => .ok n
      | .error _ => .error ()
  | .arr fields =>
    match fields.get? 4 with
    | none => .error ()
    | some v => valToInt v

/-- The pagination loop of `fetch_funding_rate`, `for _ in range(100)`:
an empty page stops; the cursor token is taken from the page's last
record; the loop stops when that token is older than the horizon.  The
second component counts the requests issued. -/
def fundingGo (pages : Nat → List FRow) (startTs : Int) :
    Nat → Nat → Except Unit (List (Int × ℚ)) × Nat
  | _, 0 => (.ok [], 0)
  | i, fuel+1 =>
    if (pages i).isEmpty then (.ok [], 1)
    else
      match fundingConsume startTs (pages i) with
      | .error e => (.error e, 1)
      | .ok recs =>
        match (pages i).getLast? with
        | none => (.ok recs, 1)
        | some last =>
          match lastTsFR last with
          | .error e => (.error e, 1)
          | .ok lastTs =>
            if lastTs < startTs then (.ok recs, 1)
            else
              match fundingGo pages startTs (i+1) fuel with
              | (.error e, n) => (.error e, n + 1)
              | (.ok rest, n) => (.ok (recs ++ rest), n + 1)

/-- Comparison of timestamped records by timestamp, the sort key of the
funding frame's `sort_values("datetime")`. -/
def pairLE (a b : Int × ℚ) : Prop := a.1 ≤ b.1

instance : DecidableRel pairLE := fun a b => Int.decLe a.1 b.1

/-- The funding-rate fetcher: the capped pagination loop followed by the
final sort; an uncaught decode exception escapes to the caller, which
degrades to the empty frame. -/
def fetch_funding_rate (pages : Nat → List FRow) (startTs : Int) :
    Except Unit (List (Int × ℚ)) × Nat :=
  let r := fundingGo pages startTs 0 100
  (match r.1 with
   | .error e => .error e
   | .ok l => .ok (List.insertionSort pairLE l), r.2)

/-- The record loop over one open-interest page: a record failing the
keyed decode is skipped (`continue`); one older than the horizon stops
the page (`break`). -/
def oiConsume (startTs : Int) : List FRow → List (Int × ℚ)
  | [] => []
  | r :: rs =>
    match keyedDecode r with
    | .error _ => oiConsume startTs rs
    | .ok v => if v.1 < startTs then [] else v :: oiConsume startTs rs

/-- The open-interest pagination token: `int(last_row.get('ts', 0))` for
a dict row (an unparseable value raises, uncaught), `int(last_row[0])`
for an array row. -/
def lastTsOI : FRow → Except Unit Int
  | .dict f1 _ =>
    match f1 with
    | none => .ok 0
    | some v => valToInt v
  | .arr fields =>
    match fields.get? 0 with
    | none => .error ()
    | some v => valToInt v

/-- The pagination loop of `fetch_open_interest`, `for i in range(500)`.
The second component counts the requests issued.  (The later 1H→4H
resample of the fetched frame is not modelled here; no claim concerns
it.) -/
def oiGo (pages : Nat → List FRow) (startTs : Int) :
    Nat → Nat → Except Unit (List (Int × ℚ)) × Nat
  | _, 0 => (.ok [], 0)
  | i, fuel+1 =>
    if (pages i).isEmpty then (.ok [], 1)
    else
      match (pages i).getLast? with
      | none => (.ok (oiConsume startTs (pages i)), 1)
      | some last =>
        match lastTsOI last with
        | .error e => (.error e, 1)
        | .ok lastTs =>
          if lastTs < startTs then (.ok (oiConsume startTs (pages i)), 1)
          else
            match oiGo pages startTs (i+1) fuel with
            | (.error e, n) => (.error e, n + 1)
            | (.ok rest, n) => (.ok (oiConsume startTs (pages i) ++ rest), n + 1)

/-- The open-interest fetcher's loop with its cap of 500. -/
def fetch_open_interest (pages : Nat → List FRow) (startTs : Int) :
    Except Unit (List (Int × ℚ)) × Nat :=
  oiGo pages startTs 0 500

/-- The unbounded `while True` pagination loop of `fetch_ccxt_candles`
(OKX-via-CCXT branch; the Binance-via-CCXT branch is identical up to
page size): `resp since` is the reply to a request with cursor `since`;
the loop exits only on an empty page or once the advanced cursor passes
`now`.  `fuel` bounds the observation; the second component counts the
requests issued within that observation. -/
def ccxtGo (resp : Int → List Candle) (nowMs : Int) :
    Int → Nat → List Candle × Nat
  | _, 0 => ([], 0)
  | since, fuel+1 =>
    if (resp since).isEmpty then ([], 1)
    else
      match (resp since).getLast? with
      | none => ([], 1)
      | some last =>
        if nowMs < last.ts + 1 then (resp since, 1)
        else
          (resp since ++ (ccxtGo resp nowMs (last.ts + 1) fuel).1,
            (ccxtGo resp nowMs (last.ts + 1) fuel).2 + 1)

theorem okxGo_count_le (pages : Nat → List Candle) (startTs : Int) :
    ∀ fuel i, (okxGo pages startTs i fuel).2 ≤ fuel := by
  intro fuel
  induction fuel with
  | zero => intro i; exact le_refl 0
  | succ n ih =>
    intro i
    show (okxGo pages startTs i (n+1)).2 ≤ n + 1
    unfold okxGo
    split
    · exact Nat.succ_le_succ (Nat.zero_le n)
    · split
      · exact Nat.succ_le_succ (Nat.zero_le n)
      · split
        · exact Nat.succ_le_succ (Nat.zero_le n)
        · exact Nat.succ_le_succ (ih (i+1))

theorem fundingGo_count_le (pages : Nat → List FRow) (startTs : Int) :
    ∀ fuel i, (fundingGo pages startTs i fuel).2 ≤ fuel := by
  intro fuel
  induction fuel with
  | zero => intro i; exact le_refl 0
  | succ n ih =>
    intro i
    show (fundingGo pages startTs i (n+1)).2 ≤ n + 1
    unfold fundingGo
    split
    · exact Nat.succ_le_succ (Nat.zero_le n)
    · split
      · exact Nat.succ_le_succ (Nat.zero_le n)
      · split
        · exact Nat.succ_le_succ (Nat.zero_le n)
        · split
          · exact Nat.succ_le_succ (Nat.zero_le n)
          · split
            · exact Nat.succ_le_succ (Nat.zero_le n)
            · rename_i heq
              split
              · rename_i e m heq2
                have := ih (i+1)
                rw [heq2] at this
                exact Nat.succ_le_succ this
              · rename_i l m heq2
                have := ih (i+1)
                rw [heq2] at this
                exact Nat.succ_le_succ this

theorem oiGo_count_le (pages : Nat → List FRow) (startTs : Int) :
    ∀ fuel i, (oiGo pages startTs i fuel).2 ≤ fuel := by
  intro fuel
  induction fuel with
  | zero => intro i; exact le_refl 0
  | succ n ih =>
    intro i
    show (oiGo pages startTs i (n+1)).2 ≤ n + 1
    unfold oiGo
    split
    · exact Nat.succ_le_succ (Nat.zero_le n)
    · split
      · exact Nat.succ_le_succ (Nat.zero_le n)
      · split
        · exact Nat.succ_le_succ (Nat.zero_le n)
        · split
          · exact Nat.succ_le_succ (Nat.zero_le n)
          · split
            · rename_i e m heq2
              have := ih (i+1)
              rw [heq2] at this
              exact Nat.succ_le_succ this
            · rename_i l m heq2
              have := ih (i+1)
              rw [heq2] at this
              exact Nat.succ_le_succ this

/-- A hostile provider for the CCXT loop: every page holds one record at
the epoch, so the cursor advances to 1 and never passes `now`. -/
def ccxtBadResp : Int → List Candle := fun _ => [c0]

/-- Claim C2 counterexample: the CCXT candle pagination loop is a
`while True` loop with no iteration cap — against this provider response
sequence it has already issued 51 page requests (beyond the 50-request
cap the claim asserts for candle loops) and is still running. -/
theorem C2_counterexample :
    (ccxtGo ccxtBadResp 1000000000 0 51).2 = 51 ∧ 50 < 51 := by
  constructor
  · decide
  · decide

/-- Claim C2 amended: the OKX pagination loops are capped — at most 50
page requests for candles, 100 for funding-rate history, 500 for
open-interest history, for every provider response sequence — but the
CCXT candle loops carry no cap at all and need not terminate. -/
theorem C2_pagination_caps (pagesC : Nat → List Candle)
    (pagesF pagesO : Nat → List FRow) (s1 s2 s3 : Int) :
    (fetch_okx_candles pagesC s1).2 ≤ 50 ∧
    (fetch_funding_rate pagesF s2).2 ≤ 100 ∧
    (fetch_open_interest pagesO s3).2 ≤ 500 :=
  ⟨okxGo_count_le pagesC s1 50 0, fundingGo_count_le pagesF s2 100 0,
    oiGo_count_le pagesO s3 500 0⟩

theorem fundingConsume_abort (startTs : Int) (r : FRow)
    (hr : decodeFR r = .error ()) (post : List FRow) :
    ∀ pre : List FRow,
      (∀ x ∈ pre, ∃ v, decodeFR x = Except.ok v ∧ ¬ v.1 < startTs) →
        fundingConsume startTs (pre ++ r :: post) = .error () := by
  intro pre
  induction pre with
  | nil =>
    intro _
    simp only [List.nil_append, fundingConsume, hr]
  | cons x xs ih =>
    intro hpre
    rcases hpre x (List.mem_cons_self x xs) with ⟨v, hv, hvge⟩
    simp only [List.cons_append, fundingConsume, hv]
    rw [if_neg hvge]
    rw [show fundingConsume startTs (xs.append (r :: post)) = Except.error ()
      from ih (fun y hy => hpre y (List.mem_cons_of_mem x hy))]

/-- A funding page whose first record fails both decodes (an empty
positional array) and whose second record is perfectly decodable. -/
def badPage : List FRow :=
  [FRow.arr [], FRow.dict (some (Val.num 100)) (some (Val.num 1))]

/-- Claim C8 counterexample: the first record of the page fails keyed
access (`AttributeError`) and then positional access (`IndexError`,
uncaught), so the whole page is aborted — the decodable second record is
lost, where the claim promises only the bad record would be skipped. -/
theorem C8_counterexample :
    fundingConsume 0 badPage = .error () ∧
    ∀ l : List (Int × ℚ), fundingConsume 0 badPage ≠ Except.ok l := by
  refine ⟨rfl, ?_⟩
  intro l h
  rw [show fundingConsume 0 badPage = .error () from rfl] at h
  cases h

/-- Claim C8 amended: the funding decoder tries keyed access first and
falls back to positional access on failure, but a record failing both
does not get skipped — it raises an uncaught exception that aborts the
whole page (and fetch), regardless of how many decodable records
surround it. -/
theorem C8_decode_fallback (startTs : Int) (pre post : List FRow) (r : FRow)
    (hpre : ∀ x ∈ pre, ∃ v, decodeFR x = Except.ok v ∧ ¬ v.1 < startTs)
    (hr : decodeFR r = .error ()) :
    (∀ x v, keyedDecode x = Except.ok v → decodeFR x = Except.ok v) ∧
    (∀ x : FRow, keyedDecode x = .error () → decodeFR x = posDecode x) ∧
    fundingConsume startTs (pre ++ r :: post) = .error () :=
  ⟨fun x v h => by unfold decodeFR; rw [h],
   fun x h => by unfold decodeFR; rw [h],
   fundingConsume_abort startTs r hr post pre hpre⟩

/-- Witness for C8: one decodable record before the undecodable one —
the page still aborts. -/
theorem C8_witness :
    fundingConsume 0
      ([FRow.dict (some (Val.num 100)) (some (Val.num 1))] ++
        FRow.arr [] :: []) = .error () :=
  (C8_decode_fallback 0 [FRow.dict (some (Val.num 100)) (some (Val.num 1))]
    [] (FRow.arr [])
    (by
      intro x hx
      rcases List.mem_singleton.mp hx with rfl
      exact ⟨(100, 1), rfl, by decide⟩)
    rfl).2.2
